import Mathlib

/-!
# Verification of the marathon-scripts spreadsheet reporting pipeline

Shallow embedding of the two Google Apps Script source files:

* `finance-weekly-internal-audit/Code.js` — the row flattener
  (`flattenTransactionsAudit`) and the weekly snapshot mailer
  (`sendFormattedEmail`);
* the attendance mailer script — grouping (`groupRowsByDepartment_`),
  the per-department send loop (`sendAttendancePerDepartment`), HTML cell
  formatting (`buildHtmlTable_`) and CSV serialization (`toCsvBlob_`).

Spreadsheet cells are modelled by the inductive `Cell`; the JavaScript
host facilities the scripts rely on (`new Date(v).getTime()`,
numeric `toString`, `Utilities.formatDate`) are modelled by explicit
functions whose doc comments state the modelling choice.  `NaN` (the
result of parsing an unparseable date string) is modelled by `Option.none`,
with JavaScript's comparison semantics (`NaN` compares false) reproduced
in `jsLe`/`jsGt`.
-/

namespace MarathonScripts

/-- A spreadsheet cell value as returned by `getValues()`:
`null`, a string, a number, or a date (carried as epoch milliseconds). -/
inductive Cell where
  | null : Cell
  | str : String → Cell
  | num : Int → Cell
  | date : Int → Cell
deriving DecidableEq

/-- Models the JavaScript test `cell === "" || cell === null` used at
`auditGroupData.every(...)` in `flattenTransactionsAudit`. -/
def Cell.isEmptyCell : Cell → Bool
  | Cell.null => true
  | Cell.str s => s = ""
  | Cell.num _ => false
  | Cell.date _ => false

/-- JavaScript truthiness of a cell value (`!v` is its negation):
`null`, the empty string and the number `0` are falsy; a `Date` object is
always truthy. -/
def Cell.truthy : Cell → Bool
  | Cell.null => false
  | Cell.str s => s ≠ ""
  | Cell.num n => n ≠ 0
  | Cell.date _ => true

/-- Accumulator for `digitsNat?`. -/
def digitsNatAux : List Char → Nat → Option Nat
  | [], acc => some acc
  | c :: cs, acc =>
      if c.isDigit then digitsNatAux cs (10 * acc + (c.toNat - 48)) else none

/-- The natural number denoted by a non-empty all-digit character list;
`none` otherwise. -/
def digitsNat? : List Char → Option Nat
  | [] => none
  | c :: cs => digitsNatAux (c :: cs) 0

/-- Models `new Date(v).getTime()`; `none` stands for `NaN`.
A date value yields its instant, a number is taken as epoch milliseconds,
`null` parses to epoch `0` (as `new Date(null)` does), and a string is
parsed by the host date parser — modelled here as: strings of decimal
digits denote epoch milliseconds, every other string yields `NaN`. -/
def dateMs : Cell → Option Int
  | Cell.null => some 0
  | Cell.str s => (digitsNat? s.data).map Int.ofNat
  | Cell.num n => some n
  | Cell.date t => some t

/-- JavaScript `<=` on possibly-`NaN` numbers: any comparison against
`NaN` is false. -/
def jsLe : Option Int → Option Int → Bool
  | some a, some b => a ≤ b
  | _, _ => false

/-- JavaScript `>` on possibly-`NaN` numbers: any comparison against
`NaN` is false. -/
def jsGt : Option Int → Option Int → Bool
  | some a, some b => b < a
  | _, _ => false

/-! ## The flattening transform (`flattenTransactionsAudit`) -/

/-- `const STATIC_COLS = 4` — Timestamp, Email, Request, Date-Monday. -/
def STATIC_COLS : Nat := 4

/-- `const AUDIT_GROUP_SIZE = 17` — T Ref No., FIN01–FIN15, T Remark. -/
def AUDIT_GROUP_SIZE : Nat := 17

/-- `const NUMBER_OF_GROUPS = 20`. -/
def NUMBER_OF_GROUPS : Nat := 20

/-- `const EXPECTED_TOTAL_COLS = STATIC_COLS + AUDIT_GROUP_SIZE * NUMBER_OF_GROUPS`. -/
def EXPECTED_TOTAL_COLS : Nat := STATIC_COLS + AUDIT_GROUP_SIZE * NUMBER_OF_GROUPS

/-- The 21-label header array written to the target sheet (source lines
27–33). -/
def auditHeaders : List String :=
  ["Timestamp", "Email Address", "Choose Request", "Date - Monday", "T Ref No.",
   "FIN-1 HOD signature Amend Amount & Description",
   "FIN-2 Checked by, Approved by, Prepared by",
   "FIN-3 Xero System bills", "FIN-4 Budget, Approval Request",
   "FIN-5 Debit Voucher, Business Unit (To tick)",
   "FIN-6 Bank Balance - Daily Update", "FIN-7 Cash Balance",
   "FIN-8 Daily Entry update in System",
   "FIN-9 Bank A/C, Bank Information for payment (Correct)",
   "FIN-10 Avoid of duplicating transfer (Accounting Bill only)",
   "FIN-11 Daily update Xero", "FIN-12 Description Accuracy",
   "FIN-13 Completion of Source Document", "FIN-14 Advance Form Compliance",
   "FIN-15 Accuracy of Amount", "T Remark"]

/-- The timestamp cell `row[0]` of a source row. -/
def rowTimestamp (row : List Cell) : Cell := row.headD Cell.null

/-- `const lastDate = lastTimestampValue ? new Date(lastTimestampValue).getTime() : 0`. -/
def effLastDate (lastTimestampValue : Cell) : Option Int :=
  if lastTimestampValue.truthy then dateMs lastTimestampValue else some 0

/-- A source row survives the three `continue` guards of the outer loop:
it has at least `EXPECTED_TOTAL_COLS` cells, its timestamp cell is truthy,
and `currentDate <= lastDate` is false (note: a `NaN` timestamp is *not*
skipped, exactly as in the JavaScript comparison). -/
def rowEligible (lastDate : Option Int) (row : List Cell) : Bool :=
  decide (EXPECTED_TOTAL_COLS ≤ row.length) &&
    (rowTimestamp row).truthy &&
    !(jsLe (dateMs (rowTimestamp row)) lastDate)

/-- `row.slice(startIndex, endIndex)` for audit group `g`:
the 17 cells starting at `STATIC_COLS + g * AUDIT_GROUP_SIZE`. -/
def groupSlice (row : List Cell) (g : Nat) : List Cell :=
  (row.drop (STATIC_COLS + g * AUDIT_GROUP_SIZE)).take AUDIT_GROUP_SIZE

/-- The inner loop of `flattenTransactionsAudit` for one source row:
for each of the 20 groups, skip it when every cell is empty, otherwise
emit `[...staticData, ...auditGroupData]`; an ineligible row emits
nothing. -/
def emitRow (lastDate : Option Int) (row : List Cell) : List (List Cell) :=
  if rowEligible lastDate row then
    (List.range NUMBER_OF_GROUPS).filterMap (fun g =>
      let grp := groupSlice row g
      if grp.all Cell.isEmptyCell then none
      else some (row.take STATIC_COLS ++ grp))
  else []

/-- Step 3 of the outer loop (source lines 79–82): the
`newLastTimestamp` accumulator is replaced by the row's timestamp cell
when `currentDate > new Date(newLastTimestamp).getTime()` or the
accumulator is the empty string; rows removed by an earlier `continue`
never reach this step. -/
def stepTs (lastDate : Option Int) (acc : Cell) (row : List Cell) : Cell :=
  if rowEligible lastDate row then
    if jsGt (dateMs (rowTimestamp row)) (dateMs acc) || acc == Cell.str "" then
      rowTimestamp row
    else acc
  else acc

/-- The observable outcome of one run of `flattenTransactionsAudit`:
the rows appended to the target sheet and the value left in the
watermark cell `Z1` (the cell is rewritten only when the value changed,
which is observationally the same). -/
structure FlattenResult where
  newRows : List (List Cell)
  newLastTimestamp : Cell
deriving DecidableEq

/-- `flattenTransactionsAudit`, lines 23–97: `data` is the full source
range including its header row (the loop starts at `i = 1`), and
`lastTimestampValue` is the current content of the watermark cell. -/
def flattenTransactionsAudit (lastTimestampValue : Cell)
    (data : List (List Cell)) : FlattenResult :=
  if data.length ≤ 1 then ⟨[], lastTimestampValue⟩
  else
    let lastDate := effLastDate lastTimestampValue
    let rows := data.drop 1
    ⟨rows.flatMap (emitRow lastDate), rows.foldl (stepTs lastDate) lastTimestampValue⟩

/-- The instant of a row's timestamp cell (`const currentDate = new
Date(timestampValue).getTime()`); `none` is `NaN`. -/
def rowInstant (row : List Cell) : Option Int := dateMs (rowTimestamp row)

/-- The rows of a run that survive all three `continue` guards. -/
def eligRows (lastDate : Option Int) (rows : List (List Cell)) : List (List Cell) :=
  rows.filter (rowEligible lastDate)

/-! ### Helper lemmas about the flattener -/

theorem groupSlice_length {row : List Cell} {g : Nat}
    (hrow : EXPECTED_TOTAL_COLS ≤ row.length) (hg : g < NUMBER_OF_GROUPS) :
    (groupSlice row g).length = AUDIT_GROUP_SIZE := by
  simp only [EXPECTED_TOTAL_COLS, STATIC_COLS, AUDIT_GROUP_SIZE, NUMBER_OF_GROUPS] at hrow hg
  simp only [groupSlice, List.length_take, List.length_drop, STATIC_COLS,
    AUDIT_GROUP_SIZE, NUMBER_OF_GROUPS]
  omega

theorem rowEligible_iff {lastDate : Option Int} {row : List Cell} :
    rowEligible lastDate row = true ↔
      EXPECTED_TOTAL_COLS ≤ row.length ∧ (rowTimestamp row).truthy = true ∧
        jsLe (rowInstant row) lastDate = false := by
  simp [rowEligible, rowInstant, Bool.and_assoc]

theorem mem_emitRow {lastDate : Option Int} {row r : List Cell}
    (h : r ∈ emitRow lastDate row) :
    rowEligible lastDate row = true ∧
      ∃ g, g < NUMBER_OF_GROUPS ∧ (groupSlice row g).all Cell.isEmptyCell = false ∧
        r = row.take STATIC_COLS ++ groupSlice row g := by
  by_cases he : rowEligible lastDate row
  · refine ⟨he, ?_⟩
    simp only [emitRow, he, if_true, List.mem_filterMap, List.mem_range] at h
    obtain ⟨g, hg, hsome⟩ := h
    by_cases hall : (groupSlice row g).all Cell.isEmptyCell
    · simp [hall] at hsome
    · simp only [hall, if_neg, Bool.false_eq_true, not_false_iff, if_false] at hsome
      exact ⟨g, hg, by simpa using hall, (Option.some.inj hsome).symm⟩
  · simp [emitRow, he] at h

theorem emitRow_of_not_eligible {lastDate : Option Int} {row : List Cell}
    (h : rowEligible lastDate row = false) : emitRow lastDate row = [] := by
  simp [emitRow, h]

theorem flatMap_emitRow_of_no_eligible {lastDate : Option Int}
    {rows : List (List Cell)}
    (h : ∀ row ∈ rows, rowEligible lastDate row = false) :
    rows.flatMap (emitRow lastDate) = [] := by
  induction rows with
  | nil => rfl
  | cons row rows ih =>
    rw [List.flatMap_cons, emitRow_of_not_eligible (h row (by simp)),
      List.nil_append]
    exact ih fun r hr => h r (by simp [hr])

theorem foldl_stepTs_of_no_eligible {lastDate : Option Int}
    {rows : List (List Cell)} {acc : Cell}
    (h : ∀ row ∈ rows, rowEligible lastDate row = false) :
    rows.foldl (stepTs lastDate) acc = acc := by
  induction rows generalizing acc with
  | nil => rfl
  | cons row rows ih =>
    rw [List.foldl_cons]
    have : stepTs lastDate acc row = acc := by
      simp [stepTs, h row (by simp)]
    rw [this]
    exact ih fun r hr => h r (by simp [hr])

theorem foldl_stepTs_filter (lastDate : Option Int) (rows : List (List Cell))
    (acc : Cell) :
    rows.foldl (stepTs lastDate) acc =
      (eligRows lastDate rows).foldl (stepTs lastDate) acc := by
  induction rows generalizing acc with
  | nil => rfl
  | cons row rows ih =>
    by_cases h : rowEligible lastDate row
    · rw [List.foldl_cons, eligRows, List.filter_cons_of_pos h, List.foldl_cons,
        ← eligRows, ih]
    · have hstep : stepTs lastDate acc row = acc := by
        simp [stepTs, h]
      rw [List.foldl_cons, hstep, eligRows,
        List.filter_cons_of_neg (by simpa using h), ← eligRows, ih]

theorem dateMs_str_empty : dateMs (Cell.str "") = none := rfl

theorem dateMs_rowTimestamp (row : List Cell) :
    dateMs (rowTimestamp row) = rowInstant row := rfl

/-- Behaviour of the `newLastTimestamp` accumulator across a block of rows
that all survive the `continue` guards and all carry parseable (non-`NaN`)
timestamps: starting from an accumulator that is below the watermark cut,
is the empty string, or is itself parseable, the fold either leaves the
accumulator untouched (no rows), returns the timestamp of a row that
dominates every row of the block, or keeps a parseable accumulator that
dominates the block. -/
theorem foldl_stepTs_spec (ld : Option Int) (hld : ld.isSome = true) :
    ∀ (l : List (List Cell)) (acc : Cell),
      (∀ row ∈ l, rowEligible ld row = true ∧ (rowInstant row).isSome = true) →
      (jsLe (dateMs acc) ld = true ∨ acc = Cell.str "" ∨ (dateMs acc).isSome = true) →
      (l.foldl (stepTs ld) acc = acc ∧ l = []) ∨
      (∃ row ∈ l, l.foldl (stepTs ld) acc = rowTimestamp row ∧
        (∀ r2 ∈ l, jsLe (rowInstant r2) (rowInstant row) = true) ∧
        (∀ m : Int, dateMs acc = some m → jsGt (rowInstant row) (some m) = true)) ∨
      ((dateMs acc).isSome = true ∧ l.foldl (stepTs ld) acc = acc ∧
        ∀ r2 ∈ l, jsLe (rowInstant r2) (dateMs acc) = true) := by
  intro l
  induction l with
  | nil => intro acc _ _; exact Or.inl ⟨rfl, rfl⟩
  | cons row l ih =>
    intro acc hl hacc
    obtain ⟨helig, hsome⟩ := hl row (by simp)
    obtain ⟨c, hc⟩ := Option.isSome_iff_exists.mp hsome
    obtain ⟨L, hL⟩ := Option.isSome_iff_exists.mp hld
    have hltail : ∀ r2 ∈ l, rowEligible ld r2 = true ∧ (rowInstant r2).isSome = true :=
      fun r2 hr2 => hl r2 (by simp [hr2])
    have hgtL : L < c := by
      have h := (rowEligible_iff.mp helig).2.2
      rw [hc, hL] at h
      simpa [jsLe] using h
    rw [List.foldl_cons]
    by_cases hfire : (jsGt (rowInstant row) (dateMs acc) || acc == Cell.str "") = true
    · have hstep : stepTs ld acc row = rowTimestamp row := by
        simp only [stepTs, helig, if_true]
        rw [← dateMs_rowTimestamp] at hfire
        simp [hfire]
      rw [hstep]
      have haccgt : ∀ m : Int, dateMs acc = some m →
          jsGt (rowInstant row) (some m) = true := by
        intro m hm
        rcases (by simpa using hfire :
            jsGt (rowInstant row) (dateMs acc) = true ∨ (acc == Cell.str "") = true)
          with h | h
        · rwa [hm] at h
        · have hacc' : acc = Cell.str "" := by simpa using h
          rw [hacc', dateMs_str_empty] at hm
          exact absurd hm (by simp)
      have haccnew : jsLe (dateMs (rowTimestamp row)) ld = true ∨
          rowTimestamp row = Cell.str "" ∨ (dateMs (rowTimestamp row)).isSome = true :=
        Or.inr (Or.inr (by rw [dateMs_rowTimestamp]; exact hsome))
      rcases ih (rowTimestamp row) hltail haccnew with
        ⟨heq, hnil⟩ | ⟨row2, hrow2, heq, hmax, hgtacc⟩ | ⟨_, heq, hall⟩
      · subst hnil
        refine Or.inr (Or.inl ⟨row, by simp, heq, ?_, haccgt⟩)
        intro r2 hr2
        have : r2 = row := by simpa using hr2
        subst this
        simp [jsLe, hc]
      · obtain ⟨c2, hc2⟩ := Option.isSome_iff_exists.mp (hltail row2 hrow2).2
        have hgt_c : jsGt (rowInstant row2) (some c) = true := by
          have := hgtacc c (by rw [dateMs_rowTimestamp]; exact hc)
          exact this
        have hcc2 : c < c2 := by
          rw [hc2] at hgt_c
          simpa [jsGt] using hgt_c
        refine Or.inr (Or.inl ⟨row2, by simp [hrow2], heq, ?_, ?_⟩)
        · intro r2 hr2
          rcases List.mem_cons.mp hr2 with h | h
          · subst h
            rw [hc, hc2]
            simp [jsLe]
            omega
          · exact hmax r2 h
        · intro m hm
          have h1 := haccgt m hm
          rw [hc] at h1
          have hmc : m < c := by simpa [jsGt] using h1
          rw [hc2]
          simp [jsGt]
          omega
      · refine Or.inr (Or.inl ⟨row, by simp, heq, ?_, haccgt⟩)
        intro r2 hr2
        rcases List.mem_cons.mp hr2 with h | h
        · subst h
          simp [jsLe, hc]
        · have := hall r2 h
          rwa [dateMs_rowTimestamp] at this
    · have hfire' := Bool.not_eq_true _ ▸ hfire
      have hgt_false : jsGt (rowInstant row) (dateMs acc) = false := by
        rcases Bool.or_eq_false_iff.mp (Bool.eq_false_iff.mpr hfire) with ⟨h, _⟩
        exact h
      have hne : (acc == Cell.str "") = false := by
        rcases Bool.or_eq_false_iff.mp (Bool.eq_false_iff.mpr hfire) with ⟨_, h⟩
        exact h
      have hstep : stepTs ld acc row = acc := by
        simp only [stepTs, helig, if_true]
        rw [← dateMs_rowTimestamp] at hgt_false
        simp [hgt_false, hne]
      rw [hstep]
      rcases hacc with h | h | h
      · -- accumulator below the cut: every eligible row fires, contradiction
        exfalso
        cases hdm : dateMs acc with
        | none => rw [hdm] at h; simp [jsLe, hL] at h
        | some m =>
          rw [hdm, hL] at h
          have hmL : m ≤ L := by simpa [jsLe] using h
          rw [hc, hdm] at hgt_false
          have : ¬ m < c := by simpa [jsGt] using hgt_false
          omega
      · exact absurd (by rw [h]; simp : (acc == Cell.str "") = true) (by simp [hne])
      · obtain ⟨m, hm⟩ := Option.isSome_iff_exists.mp h
        have hcm : c ≤ m := by
          rw [hc, hm] at hgt_false
          have : ¬ m < c := by simpa [jsGt] using hgt_false
          omega
        rcases ih acc hltail (Or.inr (Or.inr h)) with
          ⟨heq, hnil⟩ | ⟨row2, hrow2, heq, hmax, hgtacc⟩ | ⟨_, heq, hall⟩
        · subst hnil
          refine Or.inr (Or.inr ⟨h, heq, ?_⟩)
          intro r2 hr2
          have : r2 = row := by simpa using hr2
          subst this
          rw [hc, hm]
          simp [jsLe]
          omega
        · obtain ⟨c2, hc2⟩ := Option.isSome_iff_exists.mp (hltail row2 hrow2).2
          have hmc2 : m < c2 := by
            have := hgtacc m hm
            rw [hc2] at this
            simpa [jsGt] using this
          refine Or.inr (Or.inl ⟨row2, by simp [hrow2], heq, ?_, hgtacc⟩)
          intro r2 hr2
          rcases List.mem_cons.mp hr2 with h2 | h2
          · subst h2
            rw [hc, hc2]
            simp [jsLe]
            omega
          · exact hmax r2 h2
        · refine Or.inr (Or.inr ⟨h, heq, ?_⟩)
          intro r2 hr2
          rcases List.mem_cons.mp hr2 with h2 | h2
          · subst h2
            rw [hc, hm]
            simp [jsLe]
            omega
          · exact hall r2 h2

theorem effLastDate_isSome (wm : Cell)
    (hwm : wm.truthy = true → (dateMs wm).isSome = true) :
    (effLastDate wm).isSome = true := by
  unfold effLastDate
  by_cases h : wm.truthy
  · simpa [h] using hwm h
  · simp [h]

theorem dateMs_le_effLastDate {wm : Cell} {m L : Int}
    (hm : dateMs wm = some m) (hL : effLastDate wm = some L) : m ≤ L := by
  unfold effLastDate at hL
  by_cases h : wm.truthy
  · rw [if_pos h, hm] at hL
    exact le_of_eq (Option.some.inj hL)
  · rw [if_neg h] at hL
    have hL0 : L = 0 := (Option.some.inj hL).symm
    cases wm with
    | null =>
        have : m = 0 := Option.some.inj (by simpa [dateMs] using hm.symm)
        omega
    | str s =>
        have hs : s = "" := by simpa [Cell.truthy] using h
        rw [hs, dateMs_str_empty] at hm
        exact absurd hm (by simp)
    | num n =>
        have hn : n = 0 := by simpa [Cell.truthy] using h
        have : m = n := Option.some.inj (by simpa [dateMs] using hm.symm)
        omega
    | date t => simp [Cell.truthy] at h

theorem wm_acc_init (wm : Cell)
    (hwm : wm.truthy = true → (dateMs wm).isSome = true) :
    jsLe (dateMs wm) (effLastDate wm) = true ∨ wm = Cell.str "" ∨
      (dateMs wm).isSome = true := by
  by_cases h : wm = Cell.str ""
  · exact Or.inr (Or.inl h)
  · refine Or.inr (Or.inr ?_)
    cases wm with
    | null => simp [dateMs]
    | str s =>
        have hs : s ≠ "" := fun e => h (by rw [e])
        exact hwm (by simp [Cell.truthy, hs])
    | num n => simp [dateMs]
    | date t => simp [dateMs]

theorem flatten_newRows_eq (wm : Cell) (data : List (List Cell))
    (hlen : ¬ data.length ≤ 1) :
    (flattenTransactionsAudit wm data).newRows =
      (data.drop 1).flatMap (emitRow (effLastDate wm)) := by
  simp [flattenTransactionsAudit, hlen]

theorem flatten_newTs_eq (wm : Cell) (data : List (List Cell))
    (hlen : ¬ data.length ≤ 1) :
    (flattenTransactionsAudit wm data).newLastTimestamp =
      (data.drop 1).foldl (stepTs (effLastDate wm)) wm := by
  simp [flattenTransactionsAudit, hlen]

/-- C5: over a run of the flattening transform the watermark is
monotonically non-decreasing: when no source row is eligible the
watermark cell keeps its old value; otherwise the new watermark is the
timestamp cell of an eligible row whose instant dominates the instant of
every eligible row of the run and lies strictly above the prior
watermark cut, so rows skipped for short length, empty timestamp or a
stale timestamp never contribute.  (Timestamps are assumed parseable:
the hypotheses say every eligible row's timestamp and a non-empty
watermark cell parse to instants.) -/
theorem flatten_watermark_max (wm : Cell) (data : List (List Cell))
    (hrows : ∀ row ∈ data.drop 1, rowEligible (effLastDate wm) row = true →
      (rowInstant row).isSome = true)
    (hwm : wm.truthy = true → (dateMs wm).isSome = true) :
    (eligRows (effLastDate wm) (data.drop 1) = [] →
        (flattenTransactionsAudit wm data).newLastTimestamp = wm) ∧
    (∀ row ∈ eligRows (effLastDate wm) (data.drop 1),
        jsLe (rowInstant row)
          (dateMs (flattenTransactionsAudit wm data).newLastTimestamp) = true) ∧
    (eligRows (effLastDate wm) (data.drop 1) ≠ [] →
        ∃ row ∈ eligRows (effLastDate wm) (data.drop 1),
          (flattenTransactionsAudit wm data).newLastTimestamp = rowTimestamp row ∧
          jsGt (dateMs (flattenTransactionsAudit wm data).newLastTimestamp)
            (effLastDate wm) = true) := by
  by_cases hlen : data.length ≤ 1
  · have hdrop : data.drop 1 = [] := by
      cases data with
      | nil => rfl
      | cons x xs => simp at hlen; simp [hlen]
    rw [hdrop]
    simp [flattenTransactionsAudit, hlen, eligRows]
  · have hld := effLastDate_isSome wm hwm
    obtain ⟨L, hL⟩ := Option.isSome_iff_exists.mp hld
    have hl : ∀ row ∈ eligRows (effLastDate wm) (data.drop 1),
        rowEligible (effLastDate wm) row = true ∧ (rowInstant row).isSome = true := by
      intro row hrow
      have hmem := List.mem_of_mem_filter hrow
      have helig := List.of_mem_filter hrow
      exact ⟨helig, hrows row hmem helig⟩
    rw [flatten_newTs_eq wm data hlen, foldl_stepTs_filter]
    rcases foldl_stepTs_spec (effLastDate wm) hld
        (eligRows (effLastDate wm) (data.drop 1)) wm hl (wm_acc_init wm hwm) with
      ⟨heq, hnil⟩ | ⟨row0, h0, heq, hmax, _⟩ | ⟨hiso, heq, hall⟩
    · refine ⟨fun _ => heq, ?_, fun hne => absurd hnil hne⟩
      rw [hnil]
      simp
    · have h0e := (hl row0 h0).1
      obtain ⟨c0, hc0⟩ := Option.isSome_iff_exists.mp (hl row0 h0).2
      have hgtL : L < c0 := by
        have h := (rowEligible_iff.mp h0e).2.2
        rw [hc0, hL] at h
        simpa [jsLe] using h
      refine ⟨fun h => absurd (h ▸ h0) (List.not_mem_nil row0), ?_, fun _ => ?_⟩
      · intro row hrow
        rw [heq, dateMs_rowTimestamp]
        exact hmax row hrow
      · refine ⟨row0, h0, heq, ?_⟩
        rw [heq, dateMs_rowTimestamp, hc0, hL]
        simp [jsGt]
        omega
    · by_cases hne : eligRows (effLastDate wm) (data.drop 1) = []
      · refine ⟨fun _ => heq, ?_, fun h => absurd hne h⟩
        rw [hne]
        simp
      · exfalso
        obtain ⟨row, hrow⟩ := List.exists_mem_of_ne_nil _ hne
        obtain ⟨m, hm⟩ := Option.isSome_iff_exists.mp hiso
        obtain ⟨c, hc⟩ := Option.isSome_iff_exists.mp (hl row hrow).2
        have h1 := hall row hrow
        rw [hc, hm] at h1
        have hcm : c ≤ m := by simpa [jsLe] using h1
        have hmL : m ≤ L := dateMs_le_effLastDate hm hL
        have h2 := (rowEligible_iff.mp (hl row hrow).1).2.2
        rw [hc, hL] at h2
        have : ¬ c ≤ L := by simpa [jsLe] using h2
        omega

/-- C3 (amended): re-running the flattening transform on the same source
table with the watermark produced by the first run emits zero output
rows and leaves the watermark unchanged, *provided* every non-empty
timestamp cell of the data rows parses to a valid instant and the prior
watermark, when non-empty, parses to a valid instant (a row whose
non-empty timestamp parses to `NaN` is re-emitted on every run, see the
counterexample). -/
theorem flatten_idempotent (wm : Cell) (data : List (List Cell))
    (hrows : ∀ row ∈ data.drop 1, (rowTimestamp row).truthy = true →
      (rowInstant row).isSome = true)
    (hwm : wm.truthy = true → (dateMs wm).isSome = true) :
    (flattenTransactionsAudit
        (flattenTransactionsAudit wm data).newLastTimestamp data).newRows = [] ∧
    (flattenTransactionsAudit
        (flattenTransactionsAudit wm data).newLastTimestamp data).newLastTimestamp =
      (flattenTransactionsAudit wm data).newLastTimestamp := by
  by_cases hlen : data.length ≤ 1
  · simp [flattenTransactionsAudit, hlen]
  · have hld := effLastDate_isSome wm hwm
    obtain ⟨L, hL⟩ := Option.isSome_iff_exists.mp hld
    have hl : ∀ row ∈ eligRows (effLastDate wm) (data.drop 1),
        rowEligible (effLastDate wm) row = true ∧ (rowInstant row).isSome = true := by
      intro row hrow
      have hmem := List.mem_of_mem_filter hrow
      have helig := List.of_mem_filter hrow
      exact ⟨helig, hrows row hmem (rowEligible_iff.mp helig).2.1⟩
    have hts1 : (flattenTransactionsAudit wm data).newLastTimestamp =
        (eligRows (effLastDate wm) (data.drop 1)).foldl (stepTs (effLastDate wm)) wm := by
      rw [flatten_newTs_eq wm data hlen, foldl_stepTs_filter]
    rcases foldl_stepTs_spec (effLastDate wm) hld
        (eligRows (effLastDate wm) (data.drop 1)) wm hl (wm_acc_init wm hwm) with
      ⟨heq, hnil⟩ | ⟨row0, h0, heq, hmax, _⟩ | ⟨hiso, heq, hall⟩
    · -- no eligible rows in the first run: the watermark is unchanged and
      -- the second run behaves exactly like the first, emitting nothing
      have hwm1 : (flattenTransactionsAudit wm data).newLastTimestamp = wm := by
        rw [hts1, heq]
      have hnone : ∀ row ∈ data.drop 1, rowEligible (effLastDate wm) row = false := by
        intro row hrow
        by_cases h : rowEligible (effLastDate wm) row
        · exact absurd (hnil ▸ List.mem_filter.mpr ⟨hrow, h⟩) (List.not_mem_nil row)
        · simpa using h
      rw [hwm1]
      constructor
      · rw [flatten_newRows_eq wm data hlen]
        exact flatMap_emitRow_of_no_eligible hnone
      · rw [flatten_newTs_eq wm data hlen]
        exact foldl_stepTs_of_no_eligible hnone
    · -- the first run advanced the watermark to the dominating timestamp
      have h0e := (hl row0 h0).1
      obtain ⟨c0, hc0⟩ := Option.isSome_iff_exists.mp (hl row0 h0).2
      have hgtL : L < c0 := by
        have h := (rowEligible_iff.mp h0e).2.2
        rw [hc0, hL] at h
        simpa [jsLe] using h
      have hwm1 : (flattenTransactionsAudit wm data).newLastTimestamp =
          rowTimestamp row0 := by rw [hts1, heq]
      have htr0 : (rowTimestamp row0).truthy = true := (rowEligible_iff.mp h0e).2.1
      have hld2 : effLastDate (rowTimestamp row0) = some c0 := by
        rw [effLastDate, if_pos htr0, dateMs_rowTimestamp, hc0]
      have hnone : ∀ row ∈ data.drop 1,
          rowEligible (effLastDate (rowTimestamp row0)) row = false := by
        intro row hrow
        by_cases h : rowEligible (effLastDate (rowTimestamp row0)) row
        · exfalso
          obtain ⟨hlen2, htr, hnle⟩ := rowEligible_iff.mp h
          obtain ⟨c, hc⟩ := Option.isSome_iff_exists.mp (hrows row hrow htr)
          rw [hc, hld2] at hnle
          have hgtc0 : ¬ c ≤ c0 := by simpa [jsLe] using hnle
          by_cases h1 : rowEligible (effLastDate wm) row
          · have := hmax row (List.mem_filter.mpr ⟨hrow, h1⟩)
            rw [hc, hc0] at this
            exact hgtc0 (by simpa [jsLe] using this)
          · have h1' : jsLe (rowInstant row) (effLastDate wm) = true := by
              by_cases h2 : jsLe (rowInstant row) (effLastDate wm) = true
              · exact h2
              · exact absurd (rowEligible_iff.mpr
                  ⟨hlen2, htr, by simpa using h2⟩) (by simpa using h1)
            rw [hc, hL] at h1'
            have : c ≤ L := by simpa [jsLe] using h1'
            omega
        · simpa using h
      rw [hwm1]
      constructor
      · rw [flatten_newRows_eq _ data hlen]
        exact flatMap_emitRow_of_no_eligible hnone
      · rw [flatten_newTs_eq _ data hlen]
        exact foldl_stepTs_of_no_eligible hnone
    · -- the accumulator case where nothing fired: impossible unless no row
      -- was eligible, and then it coincides with the first case
      by_cases hne : eligRows (effLastDate wm) (data.drop 1) = []
      · have hwm1 : (flattenTransactionsAudit wm data).newLastTimestamp = wm := by
          rw [hts1, heq]
        have hnone : ∀ row ∈ data.drop 1,
            rowEligible (effLastDate wm) row = false := by
          intro row hrow
          by_cases h : rowEligible (effLastDate wm) row
          · exact absurd (hne ▸ List.mem_filter.mpr ⟨hrow, h⟩) (List.not_mem_nil row)
          · simpa using h
        rw [hwm1]
        constructor
        · rw [flatten_newRows_eq wm data hlen]
          exact flatMap_emitRow_of_no_eligible hnone
        · rw [flatten_newTs_eq wm data hlen]
          exact foldl_stepTs_of_no_eligible hnone
      · exfalso
        obtain ⟨row, hrow⟩ := List.exists_mem_of_ne_nil _ hne
        obtain ⟨m, hm⟩ := Option.isSome_iff_exists.mp hiso
        obtain ⟨c, hc⟩ := Option.isSome_iff_exists.mp (hl row hrow).2
        have h1 := hall row hrow
        rw [hc, hm] at h1
        have hcm : c ≤ m := by simpa [jsLe] using h1
        have hmL : m ≤ L := dateMs_le_effLastDate hm hL
        have h2 := (rowEligible_iff.mp (hl row hrow).1).2.2
        rw [hc, hL] at h2
        have : ¬ c ≤ L := by simpa [jsLe] using h2
        omega

/-- A generic bridge between the `filterMap`-with-guard shape of the
inner loop and a `filter`-then-`map` description. -/
theorem filterMap_guard_eq_filter_map {α β : Type} (p : α → Bool) (f : α → β)
    (l : List α) :
    (l.filterMap fun a => if p a then none else some (f a)) =
      (l.filter fun a => !p a).map f := by
  induction l with
  | nil => rfl
  | cons a l ih => by_cases h : p a <;> simp [h, ih]

/-- C4: for a source row that survives all three `continue` guards, the
inner loop emits, for each of the 20 audit groups in order, nothing when
every one of the group's cells is empty, and exactly one row — the
4-cell static prefix followed by the group's cells — when at least one
cell is non-empty; hence the number of emitted rows is the number of
non-empty groups. -/
theorem emitRow_per_group (lastDate : Option Int) (row : List Cell)
    (h : rowEligible lastDate row = true) :
    emitRow lastDate row =
      ((List.range NUMBER_OF_GROUPS).filter
          (fun g => !(groupSlice row g).all Cell.isEmptyCell)).map
        (fun g => row.take STATIC_COLS ++ groupSlice row g) ∧
    (emitRow lastDate row).length =
      ((List.range NUMBER_OF_GROUPS).filter
          (fun g => !(groupSlice row g).all Cell.isEmptyCell)).length := by
  have hemit : emitRow lastDate row =
      ((List.range NUMBER_OF_GROUPS).filter
          (fun g => !(groupSlice row g).all Cell.isEmptyCell)).map
        (fun g => row.take STATIC_COLS ++ groupSlice row g) := by
    rw [emitRow, if_pos h]
    exact filterMap_guard_eq_filter_map
      (fun g => (groupSlice row g).all Cell.isEmptyCell)
      (fun g => row.take STATIC_COLS ++ groupSlice row g) _
  exact ⟨hemit, by rw [hemit, List.length_map]⟩

/-- C1 (amended): every output row emitted by the flattening transform
has 21 values — the 4 static prefix cells followed by *all 17* cells of
the corresponding audit group (the leading "ref no." and trailing
"remark" cells are *not* dropped) — matching the 21 column labels of the
header row. -/
theorem flatten_emitted_row_width (wm : Cell) (data : List (List Cell))
    (r : List Cell) (h : r ∈ (flattenTransactionsAudit wm data).newRows) :
    r.length = 21 ∧ auditHeaders.length = 21 := by
  refine ⟨?_, by rfl⟩
  by_cases hlen : data.length ≤ 1
  · simp [flattenTransactionsAudit, hlen] at h
  · rw [flatten_newRows_eq wm data hlen, List.mem_flatMap] at h
    obtain ⟨row, _, hr⟩ := h
    obtain ⟨helig, g, hg, _, hrw⟩ := mem_emitRow hr
    have hrowlen : EXPECTED_TOTAL_COLS ≤ row.length := (rowEligible_iff.mp helig).1
    have hslice : (groupSlice row g).length = AUDIT_GROUP_SIZE :=
      groupSlice_length hrowlen hg
    have htake : (row.take STATIC_COLS).length = STATIC_COLS := by
      simp only [List.length_take]
      simp only [EXPECTED_TOTAL_COLS, STATIC_COLS, AUDIT_GROUP_SIZE,
        NUMBER_OF_GROUPS] at hrowlen ⊢
      omega
    rw [hrw, List.length_append, htake, hslice]
    rfl

/-- A sample source row: timestamp `date 5`, three static cells, a first
audit group whose first cell is non-empty, all later groups entirely
empty. -/
def sampleAuditRow : List Cell :=
  Cell.date 5 :: Cell.str "e" :: Cell.str "rq" :: Cell.str "wk" ::
    ((Cell.str "ok" :: List.replicate 16 Cell.null) ++ List.replicate 323 Cell.null)

/-- A sample source table: header row plus `sampleAuditRow`. -/
def sampleAuditData : List (List Cell) := [[], sampleAuditRow]

set_option maxRecDepth 100000 in
/-- C1 counterexample: on `sampleAuditData` the single emitted row has
21 values, not 19 as the claim states. -/
theorem flatten_emitted_row_width_cx :
    ((flattenTransactionsAudit (Cell.str "") sampleAuditData).newRows.map
        List.length) = [21] ∧ (21 : Nat) ≠ 19 := by
  constructor
  · decide
  · decide

set_option maxRecDepth 100000 in
/-- Witness for C1 (amended) at the sample input. -/
theorem flatten_emitted_row_width_wit :
    (Cell.date 5 :: Cell.str "e" :: Cell.str "rq" :: Cell.str "wk" ::
        Cell.str "ok" :: List.replicate 16 Cell.null).length = 21 ∧
      auditHeaders.length = 21 :=
  flatten_emitted_row_width (Cell.str "") sampleAuditData _ (by decide)

set_option maxRecDepth 100000 in
/-- Witness for C4 at the sample input. -/
theorem emitRow_per_group_wit :
    emitRow (some 0) sampleAuditRow =
      ((List.range NUMBER_OF_GROUPS).filter
          (fun g => !(groupSlice sampleAuditRow g).all Cell.isEmptyCell)).map
        (fun g => sampleAuditRow.take STATIC_COLS ++ groupSlice sampleAuditRow g) ∧
    (emitRow (some 0) sampleAuditRow).length =
      ((List.range NUMBER_OF_GROUPS).filter
          (fun g => !(groupSlice sampleAuditRow g).all Cell.isEmptyCell)).length :=
  emitRow_per_group (some 0) sampleAuditRow (by decide)

/-- A source row whose timestamp cell is the non-empty but unparseable
string `"zzz"` (`new Date("zzz").getTime()` is `NaN`). -/
def garbageTsRow : List Cell :=
  Cell.str "zzz" :: Cell.str "e" :: Cell.str "rq" :: Cell.str "wk" ::
    ((Cell.str "ok" :: List.replicate 16 Cell.null) ++ List.replicate 323 Cell.null)

/-- The source table holding `garbageTsRow` under a header row. -/
def garbageTsData : List (List Cell) := [[], garbageTsRow]

set_option maxRecDepth 100000 in
/-- C3 counterexample: with an unparseable (`NaN`) timestamp the guard
`currentDate <= lastDate` is false on every run, so the second run
re-emits the same row instead of emitting nothing. -/
theorem flatten_idempotent_cx :
    (flattenTransactionsAudit
        (flattenTransactionsAudit (Cell.str "") garbageTsData).newLastTimestamp
        garbageTsData).newRows ≠ [] := by
  decide

set_option maxRecDepth 100000 in
/-- Witness for C3 (amended) at the sample input. -/
theorem flatten_idempotent_wit :
    (flattenTransactionsAudit
        (flattenTransactionsAudit (Cell.str "") sampleAuditData).newLastTimestamp
        sampleAuditData).newRows = [] ∧
    (flattenTransactionsAudit
        (flattenTransactionsAudit (Cell.str "") sampleAuditData).newLastTimestamp
        sampleAuditData).newLastTimestamp =
      (flattenTransactionsAudit (Cell.str "") sampleAuditData).newLastTimestamp :=
  flatten_idempotent (Cell.str "") sampleAuditData (by decide) (by decide)

set_option maxRecDepth 100000 in
/-- Witness for C5 at the sample input. -/
theorem flatten_watermark_max_wit :
    (eligRows (effLastDate (Cell.str "")) (sampleAuditData.drop 1) = [] →
        (flattenTransactionsAudit (Cell.str "") sampleAuditData).newLastTimestamp =
          Cell.str "") ∧
    (∀ row ∈ eligRows (effLastDate (Cell.str "")) (sampleAuditData.drop 1),
        jsLe (rowInstant row)
          (dateMs (flattenTransactionsAudit (Cell.str "")
              sampleAuditData).newLastTimestamp) = true) ∧
    (eligRows (effLastDate (Cell.str "")) (sampleAuditData.drop 1) ≠ [] →
        ∃ row ∈ eligRows (effLastDate (Cell.str "")) (sampleAuditData.drop 1),
          (flattenTransactionsAudit (Cell.str "") sampleAuditData).newLastTimestamp =
            rowTimestamp row ∧
          jsGt (dateMs (flattenTransactionsAudit (Cell.str "")
              sampleAuditData).newLastTimestamp)
            (effLastDate (Cell.str "")) = true) :=
  flatten_watermark_max (Cell.str "") sampleAuditData (by decide) (by decide)

/-! ## The weekly snapshot mailer (`sendFormattedEmail`) -/

/-- Models `Utilities.formatDate(timestampCell, tz, "MM-dd-yyyy HH:mm:ss")`
applied to a date-typed cell: an injective rendering of the instant. -/
def fmtDate (t : Int) : String := "d:" ++ toString t

/-- Models JavaScript `v.toString()` on a cell value. -/
def jsToString : Cell → String
  | Cell.null => "null"
  | Cell.str s => s
  | Cell.num n => toString n
  | Cell.date t => fmtDate t

/-- The canonical string form of the timestamp cell (source lines
146–148): formatted when the cell is date-typed, otherwise its
`toString()`. -/
def canonicalTimestamp : Cell → String
  | Cell.date t => fmtDate t
  | c => jsToString c

/-- The observable outcome of one run of `sendFormattedEmail`: whether a
send was attempted (the `MailApp.sendEmail` call was reached), whether
it succeeded, and the resulting `lastSentTicketTimestamp` property. -/
structure SendOutcome where
  attempted : Bool
  succeeded : Bool
  newMarker : Option String
deriving DecidableEq

/-- `sendFormattedEmail`, source lines 140–151 and 313–333: return early
when the timestamp cell is falsy; otherwise attempt a send exactly when
the truthy canonical timestamp differs from the persisted marker
(`getProperty` returns `null` or a string); persist the marker only when
the send did not throw (`mailOk` models whether `MailApp.sendEmail`
succeeds). -/
def sendFormattedEmail (timestampCell : Cell) (lastTimestamp : Option String)
    (mailOk : Bool) : SendOutcome :=
  if timestampCell.truthy = false then ⟨false, false, lastTimestamp⟩
  else
    let current := canonicalTimestamp timestampCell
    if current ≠ "" ∧ some current ≠ lastTimestamp then
      if mailOk then ⟨true, true, some current⟩
      else ⟨true, false, lastTimestamp⟩
    else ⟨false, false, lastTimestamp⟩

theorem toDigitsCore_len_ge (b : Nat) :
    ∀ (f n : Nat) (ds : List Char), ds.length ≤ (Nat.toDigitsCore b f n ds).length := by
  intro f
  induction f with
  | zero => intro n ds; simp [Nat.toDigitsCore]
  | succ f ih =>
      intro n ds
      simp only [Nat.toDigitsCore]
      split
      · simp
      · exact le_trans (by simp) (ih _ _)

theorem natRepr_length_pos (m : Nat) : 1 ≤ (Nat.repr m).length := by
  show 1 ≤ (Nat.toDigits 10 m).asString.length
  have hlen : (Nat.toDigits 10 m).asString.length = (Nat.toDigits 10 m).length := rfl
  rw [hlen, Nat.toDigits]
  simp only [Nat.toDigitsCore]
  split
  · simp
  · exact le_trans (by simp) (toDigitsCore_len_ge 10 _ _ _)

theorem intRepr_length_pos (n : Int) : 1 ≤ (toString n).length := by
  show 1 ≤ (Int.repr n).length
  cases n with
  | ofNat m => exact natRepr_length_pos m
  | negSucc m =>
      show 1 ≤ ("-" ++ Nat.repr (m + 1)).length
      rw [String.length_append]
      have h1 : ("-").length = 1 := rfl
      omega

theorem canonicalTimestamp_ne_empty {c : Cell} (h : c.truthy = true) :
    canonicalTimestamp c ≠ "" := by
  cases c with
  | null => simp [Cell.truthy] at h
  | str s =>
      have : s ≠ "" := by simpa [Cell.truthy] using h
      simpa [canonicalTimestamp, jsToString]
  | num n =>
      simp only [canonicalTimestamp, jsToString]
      intro he
      have h1 := intRepr_length_pos n
      rw [he] at h1
      simp at h1
  | date t =>
      simp only [canonicalTimestamp, fmtDate]
      intro he
      have h2 : ("d:" ++ toString t).length = 0 := by rw [he]; rfl
      rw [String.length_append] at h2
      have h3 : ("d:").length = 2 := rfl
      omega

/-- C6: the weekly snapshot mailer attempts a send iff the timestamp
cell is truthy and its canonical string form differs from the persisted
marker; the marker becomes that canonical form exactly when the send
succeeds, and it is untouched when the send throws or no send is
attempted. -/
theorem sendFormattedEmail_spec (timestampCell : Cell)
    (lastTimestamp : Option String) (mailOk : Bool) :
    ((sendFormattedEmail timestampCell lastTimestamp mailOk).attempted = true ↔
      (timestampCell.truthy = true ∧
        some (canonicalTimestamp timestampCell) ≠ lastTimestamp)) ∧
    ((sendFormattedEmail timestampCell lastTimestamp mailOk).succeeded =
      ((sendFormattedEmail timestampCell lastTimestamp mailOk).attempted && mailOk)) ∧
    ((sendFormattedEmail timestampCell lastTimestamp mailOk).newMarker =
      if (sendFormattedEmail timestampCell lastTimestamp mailOk).succeeded = true
      then some (canonicalTimestamp timestampCell) else lastTimestamp) := by
  by_cases ht : timestampCell.truthy = true
  · have hne := canonicalTimestamp_ne_empty ht
    by_cases hdiff : some (canonicalTimestamp timestampCell) ≠ lastTimestamp
    · cases mailOk with
      | true =>
          simp [sendFormattedEmail, ht, hne, hdiff]
      | false =>
          simp [sendFormattedEmail, ht, hne, hdiff]
    · simp [sendFormattedEmail, ht, hne, hdiff, not_ne_iff.mp hdiff]
  · have ht' : timestampCell.truthy = false := by simpa using ht
    simp [sendFormattedEmail, ht', ht]

/-! ## The department attendance mailer -/

/-- An attendance record as built by `getAttendanceRows_`: the nine
required fields, every value already normalised to a trimmed string. -/
structure AttendanceRecord where
  department : String
  name : String
  employeeId : String
  amFaceScan : String
  pmFaceScan : String
  attendance : String
  hrAdj : String
  kpiLeave : String
  kpiPercent : String
deriving DecidableEq

/-- `acc[department].push(row)` (creating `acc[department] = []` first
when absent) on an insertion-ordered string-keyed object, modelled as an
association list. -/
def pushKey : List (String × List AttendanceRecord) → String → AttendanceRecord →
    List (String × List AttendanceRecord)
  | [], d, r => [(d, [r])]
  | (k, vs) :: rest, d, r =>
      if k = d then (k, vs ++ [r]) :: rest else (k, vs) :: pushKey rest d r

/-- `groupRowsByDepartment_`: fold the records in source order, skipping
records whose `Department` is falsy (the empty string), appending every
other record to its department's list. -/
def groupRowsByDepartment (rows : List AttendanceRecord) :
    List (String × List AttendanceRecord) :=
  rows.foldl (fun acc row =>
    if row.department ≠ "" then pushKey acc row.department row else acc) []

/-- Key lookup in the insertion-ordered object. -/
def lookupDept : List (String × List AttendanceRecord) → String →
    Option (List AttendanceRecord)
  | [], _ => none
  | (k, vs) :: rest, d => if k = d then some vs else lookupDept rest d

theorem lookupDept_pushKey_same (acc : List (String × List AttendanceRecord))
    (d : String) (r : AttendanceRecord) :
    lookupDept (pushKey acc d r) d = some ((lookupDept acc d).getD [] ++ [r]) := by
  induction acc with
  | nil => simp [pushKey, lookupDept]
  | cons e rest ih =>
      obtain ⟨k, vs⟩ := e
      by_cases h : k = d
      · simp [pushKey, lookupDept, h]
      · simp [pushKey, lookupDept, h, ih]

theorem lookupDept_pushKey_other (acc : List (String × List AttendanceRecord))
    (d d' : String) (r : AttendanceRecord) (h : d' ≠ d) :
    lookupDept (pushKey acc d r) d' = lookupDept acc d' := by
  have hdd : ¬ d = d' := fun e => h e.symm
  induction acc with
  | nil => simp [pushKey, lookupDept, hdd]
  | cons e rest ih =>
      obtain ⟨k, vs⟩ := e
      by_cases hk : k = d
      · subst hk
        simp [pushKey, lookupDept, hdd]
      · simp [pushKey, lookupDept, hk, ih]

theorem lookupDept_groupFold (rows : List AttendanceRecord) :
    ∀ (acc : List (String × List AttendanceRecord)) (d : String), d ≠ "" →
      lookupDept
          (rows.foldl (fun acc row =>
            if row.department ≠ "" then pushKey acc row.department row else acc) acc)
          d =
        (match lookupDept acc d with
         | some vs => some (vs ++ rows.filter (fun r => r.department = d))
         | none =>
             if rows.filter (fun r => r.department = d) = [] then none
             else some (rows.filter (fun r => r.department = d))) := by
  induction rows with
  | nil =>
      intro acc d _
      cases h : lookupDept acc d <;> simp [h]
  | cons r rows ih =>
      intro acc d hd
      rw [List.foldl_cons]
      by_cases hr : r.department = d
      · have hr' : r.department ≠ "" := hr ▸ hd
        rw [if_pos hr', hr, ih (pushKey acc d r) d hd, lookupDept_pushKey_same]
        cases h : lookupDept acc d with
        | some vs => simp [h, List.filter_cons, hr, List.append_assoc]
        | none => simp [h, List.filter_cons, hr]
      · have hfilter : (r :: rows).filter (fun x => x.department = d) =
            rows.filter (fun x => x.department = d) := by
          simp [List.filter_cons, hr]
        by_cases hempty : r.department = ""
        · rw [if_neg (by simpa using hempty), ih acc d hd, hfilter]
        · rw [if_pos (by simpa using hempty), ih (pushKey acc r.department r) d hd,
            lookupDept_pushKey_other acc r.department d r (fun e => hr e.symm), hfilter]

/-- C8: grouping the attendance records by department maps every
(non-empty) department name to exactly the records carrying that
department, in original source order; a name with no records is absent
from the grouping. -/
theorem groupRows_lookup (rows : List AttendanceRecord) (d : String)
    (hd : d ≠ "") :
    lookupDept (groupRowsByDepartment rows) d =
      (if rows.filter (fun r => r.department = d) = [] then none
       else some (rows.filter (fun r => r.department = d))) := by
  rw [groupRowsByDepartment, lookupDept_groupFold rows [] d hd]
  rfl

/-- First record of the claim's worked example, department `"A"`. -/
def recA0 : AttendanceRecord := ⟨"A", "n0", "i0", "", "", "", "", "", ""⟩

/-- Second record of the claim's worked example, department `"B"`. -/
def recB1 : AttendanceRecord := ⟨"B", "n1", "i1", "", "", "", "", "", ""⟩

/-- Third record of the claim's worked example, department `"A"` again. -/
def recA2 : AttendanceRecord := ⟨"A", "n2", "i2", "", "", "", "", "", ""⟩

/-- Witness for C8 on the claim's `[A, B, A]` example. -/
theorem groupRows_lookup_wit :
    ("A" : String) ≠ "" ∧
    lookupDept (groupRowsByDepartment [recA0, recB1, recA2]) "A" =
      (if ([recA0, recB1, recA2].filter (fun r => r.department = "A")) = [] then none
       else some ([recA0, recB1, recA2].filter (fun r => r.department = "A"))) :=
  ⟨by decide, groupRows_lookup [recA0, recB1, recA2] "A" (by decide)⟩

/-- Models JavaScript whitespace for `String.prototype.trim`. -/
def isJsSpace (c : Char) : Bool := c = ' ' ∨ c = '\t' ∨ c = '\n' ∨ c = '\r'

/-- Models `String.prototype.trim`. -/
def jsTrim (s : String) : String :=
  String.mk (((s.data.dropWhile isJsSpace).reverse.dropWhile isJsSpace).reverse)

/-- The guard `!recipients || recipients.trim() === ""` is false: the
department has a usable entry in the email-mapping table. -/
def hasRecipients (emails : String → Option String) (d : String) : Bool :=
  match emails d with
  | none => false
  | some r => jsTrim r ≠ ""

/-- The run-level summary of `sendAttendancePerDepartment` (counters of
source lines 57–60 and 100–104) together with the ordered list of
departments for which `sendDepartmentEmail_` was actually invoked. -/
structure RunSummary where
  departmentsProcessed : Nat
  emailsSent : Nat
  departmentsSkippedNoData : Nat
  departmentsSkippedNoEmail : Nat
  attemptedDepartments : List String
deriving DecidableEq

/-- The per-department loop of `sendAttendancePerDepartment` (source
lines 65–97): every department increments `departmentsProcessed`; a
department with no rows increments the no-data counter; one with no
usable email mapping increments the no-email counter; otherwise a send
is attempted — `sendOk d` models whether `MailApp.sendEmail` for
department `d` succeeds — and a thrown send error is caught, so the
loop continues with the remaining departments either way.  (The
recursion adds the head department's outcome to the summary of the rest;
since the counters are sums this is the same total the forward loop
accumulates, and `attemptedDepartments` keeps the loop order.) -/
def runMailer (emails : String → Option String) (sendOk : String → Bool) :
    List (String × List AttendanceRecord) → RunSummary
  | [] => ⟨0, 0, 0, 0, []⟩
  | (dept, rows) :: rest =>
      let acc := runMailer emails sendOk rest
      if rows.length = 0 then
        ⟨acc.departmentsProcessed + 1, acc.emailsSent,
          acc.departmentsSkippedNoData + 1, acc.departmentsSkippedNoEmail,
          acc.attemptedDepartments⟩
      else if hasRecipients emails dept then
        if sendOk dept then
          ⟨acc.departmentsProcessed + 1, acc.emailsSent + 1,
            acc.departmentsSkippedNoData, acc.departmentsSkippedNoEmail,
            dept :: acc.attemptedDepartments⟩
        else
          ⟨acc.departmentsProcessed + 1, acc.emailsSent,
            acc.departmentsSkippedNoData, acc.departmentsSkippedNoEmail,
            dept :: acc.attemptedDepartments⟩
      else
        ⟨acc.departmentsProcessed + 1, acc.emailsSent,
          acc.departmentsSkippedNoData, acc.departmentsSkippedNoEmail + 1,
          acc.attemptedDepartments⟩

theorem runMailer_counts (emails : String → Option String)
    (sendOk : String → Bool) (groups : List (String × List AttendanceRecord)) :
    (runMailer emails sendOk groups).departmentsProcessed = groups.length ∧
    (runMailer emails sendOk groups).attemptedDepartments =
      (groups.filter
        (fun e => !decide (e.2.length = 0) && hasRecipients emails e.1)).map
        Prod.fst ∧
    (runMailer emails sendOk groups).departmentsSkippedNoEmail =
      (groups.filter
        (fun e => !decide (e.2.length = 0) && !hasRecipients emails e.1)).length ∧
    (runMailer emails sendOk groups).departmentsSkippedNoData =
      (groups.filter (fun e => decide (e.2.length = 0))).length ∧
    (runMailer emails sendOk groups).emailsSent =
      (groups.filter
        (fun e => !decide (e.2.length = 0) && hasRecipients emails e.1 &&
          sendOk e.1)).length := by
  induction groups with
  | nil => simp [runMailer]
  | cons e rest ih =>
      obtain ⟨dept, rows⟩ := e
      obtain ⟨ih1, ih2, ih3, ih4, ih5⟩ := ih
      by_cases h0 : rows = []
      · simp [runMailer, h0, List.filter_cons, ih1, ih2, ih3, ih4, ih5]
      · by_cases h1 : hasRecipients emails dept
        · by_cases h2 : sendOk dept
          · simp [runMailer, List.length_eq_zero, h0, h1, h2, List.filter_cons,
              ih1, ih2, ih3, ih4, ih5]
          · simp [runMailer, List.length_eq_zero, h0, h1, h2, List.filter_cons,
              ih1, ih2, ih3, ih4, ih5]
        · simp [runMailer, List.length_eq_zero, h0, h1, List.filter_cons,
            ih1, ih2, ih3, ih4, ih5]

/-- C9: in the per-department loop, a department with attendance rows
but no (or blank) email mapping contributes no send attempt and exactly
one no-email skip; every department is processed no matter how the sends
of the others turn out (the attempted list and all counters other than
`emailsSent` do not depend on `sendOk`, so one department's send failure
never stops the loop). -/
theorem mailer_per_department (emails : String → Option String)
    (sendOk : String → Bool) (groups : List (String × List AttendanceRecord)) :
    (runMailer emails sendOk groups).departmentsProcessed = groups.length ∧
    (runMailer emails sendOk groups).attemptedDepartments =
      (groups.filter
        (fun e => !decide (e.2.length = 0) && hasRecipients emails e.1)).map
        Prod.fst ∧
    (runMailer emails sendOk groups).departmentsSkippedNoEmail =
      (groups.filter
        (fun e => !decide (e.2.length = 0) && !hasRecipients emails e.1)).length ∧
    (∀ d : String, hasRecipients emails d = false →
      d ∉ (runMailer emails sendOk groups).attemptedDepartments) := by
  obtain ⟨h1, h2, h3, _, _⟩ := runMailer_counts emails sendOk groups
  refine ⟨h1, h2, h3, ?_⟩
  intro d hd hmem
  rw [h2, List.mem_map] at hmem
  obtain ⟨e, he, hfst⟩ := hmem
  have := List.of_mem_filter he
  rw [hfst, hd] at this
  simp at this

/-- Witness for C9: one department with data but no mapping, one with
data and a mapping whose send fails, one with data and a mapping whose
send succeeds. -/
theorem mailer_per_department_wit :
    (runMailer
        (fun d => if d = "A" then none else some "hod@x")
        (fun d => d ≠ "B")
        [("A", [recA0]), ("B", [recB1]), ("C", [recA2])]).departmentsProcessed =
      [("A", [recA0]), ("B", [recB1]), ("C", [recA2])].length ∧
    (runMailer
        (fun d => if d = "A" then none else some "hod@x")
        (fun d => d ≠ "B")
        [("A", [recA0]), ("B", [recB1]), ("C", [recA2])]).attemptedDepartments =
      ([("A", [recA0]), ("B", [recB1]), ("C", [recA2])].filter
        (fun e => !decide (e.2.length = 0) &&
          hasRecipients (fun d => if d = "A" then none else some "hod@x") e.1)).map
        Prod.fst ∧
    (runMailer
        (fun d => if d = "A" then none else some "hod@x")
        (fun d => d ≠ "B")
        [("A", [recA0]), ("B", [recB1]), ("C", [recA2])]).departmentsSkippedNoEmail =
      ([("A", [recA0]), ("B", [recB1]), ("C", [recA2])].filter
        (fun e => !decide (e.2.length = 0) &&
          !hasRecipients (fun d => if d = "A" then none else some "hod@x") e.1)).length ∧
    (∀ d : String,
      hasRecipients (fun d => if d = "A" then none else some "hod@x") d = false →
      d ∉ (runMailer
        (fun d => if d = "A" then none else some "hod@x")
        (fun d => d ≠ "B")
        [("A", [recA0]), ("B", [recB1]), ("C", [recA2])]).attemptedDepartments) :=
  mailer_per_department (fun d => if d = "A" then none else some "hod@x")
    (fun d => d ≠ "B") [("A", [recA0]), ("B", [recB1]), ("C", [recA2])]

theorem pushKey_values_ne_nil (acc : List (String × List AttendanceRecord))
    (d : String) (r : AttendanceRecord)
    (h : ∀ e ∈ acc, e.2 ≠ []) :
    ∀ e ∈ pushKey acc d r, e.2 ≠ [] := by
  induction acc with
  | nil =>
      intro e he
      simp [pushKey] at he
      simp [he]
  | cons a rest ih =>
      obtain ⟨k, vs⟩ := a
      intro e he
      by_cases hk : k = d
      · rw [pushKey, if_pos hk] at he
        rcases List.mem_cons.mp he with h1 | h1
        · subst h1; simp
        · exact h e (by simp [h1])
      · rw [pushKey, if_neg hk] at he
        rcases List.mem_cons.mp he with h1 | h1
        · subst h1
          exact h (k, vs) (by simp)
        · exact ih (fun x hx => h x (by simp [hx])) e h1

theorem groupRows_values_ne_nil (rows : List AttendanceRecord) :
    ∀ e ∈ groupRowsByDepartment rows, e.2 ≠ [] := by
  rw [groupRowsByDepartment]
  generalize hacc : ([] : List (String × List AttendanceRecord)) = acc
  have hbase : ∀ e ∈ acc, e.2 ≠ [] := by rw [← hacc]; simp
  clear hacc
  induction rows generalizing acc with
  | nil => exact hbase
  | cons r rows ih =>
      rw [List.foldl_cons]
      by_cases h : r.department ≠ ""
      · rw [if_pos h]
        exact ih _ (pushKey_values_ne_nil acc r.department r hbase)
      · rw [if_neg h]
        exact ih _ hbase

/-- C10: every department key created by the grouping holds at least one
record (a key is only ever created by pushing a record into it), so the
skipped-no-data branch of the mailer loop is unreachable and the
no-data counter of a run over grouped data is always zero. -/
theorem grouped_no_data_skip (rows : List AttendanceRecord)
    (emails : String → Option String) (sendOk : String → Bool) :
    (∀ e ∈ groupRowsByDepartment rows, e.2 ≠ []) ∧
    (runMailer emails sendOk (groupRowsByDepartment rows)).departmentsSkippedNoData
      = 0 := by
  refine ⟨groupRows_values_ne_nil rows, ?_⟩
  obtain ⟨_, _, _, h4, _⟩ := runMailer_counts emails sendOk (groupRowsByDepartment rows)
  rw [h4, List.length_eq_zero, List.filter_eq_nil_iff]
  intro e he
  simpa using groupRows_values_ne_nil rows e he

/-- Witness for C10 on the `[A, B, A]` example records. -/
theorem grouped_no_data_skip_wit :
    (∀ e ∈ groupRowsByDepartment [recA0, recB1, recA2], e.2 ≠ []) ∧
    (runMailer (fun _ => some "hod@x") (fun _ => true)
        (groupRowsByDepartment [recA0, recB1, recA2])).departmentsSkippedNoData
      = 0 :=
  grouped_no_data_skip [recA0, recB1, recA2] (fun _ => some "hod@x") (fun _ => true)

/-! ## HTML cell formatting (`buildHtmlTable_`) -/

/-- The value of a most-significant-first decimal digit list. -/
def digitsVal (ds : List Char) : Nat :=
  ds.foldl (fun a c => 10 * a + (c.toNat - 48)) 0

/-- The syntactic pieces of a successfully parsed float: sign, value of
the integer-part digits, value of the fraction digits, and the number of
fraction digits. -/
structure FloatVal where
  neg : Bool
  ipart : Nat
  fpart : Nat
  fplen : Nat
deriving DecidableEq

/-- Models JavaScript `parseFloat` on the (already trimmed) cell
strings: skip leading spaces, optional sign, decimal digits with an
optional single fractional part, ignoring trailing garbage (so
`"95.00%"` parses as `95`); `none` models `NaN` (no digits at all).
The exponent form is not modelled — the sheet's KPI cells are plain
decimals or percentage strings. -/
def parseFloatParts (s : String) : Option FloatVal :=
  let cs := s.data.dropWhile (fun c => c = ' ')
  let isNeg := cs.head? = some '-'
  let cs1 := if cs.head? = some '-' ∨ cs.head? = some '+' then cs.tail else cs
  let ip := cs1.takeWhile Char.isDigit
  let rest := cs1.dropWhile Char.isDigit
  let fp := if rest.head? = some '.' then rest.tail.takeWhile Char.isDigit else []
  if ip = [] ∧ fp = [] then none
  else some ⟨isNeg, digitsVal ip, digitsVal fp, fp.length⟩

/-- The rational number a parsed float denotes. -/
def FloatVal.toQ (f : FloatVal) : ℚ :=
  (if f.neg then -1 else 1) * ((f.ipart : ℚ) + (f.fpart : ℚ) / (10 : ℚ) ^ f.fplen)

/-- `parseFloat` as a rational-valued partial function. -/
def parseFloatQ (s : String) : Option ℚ := (parseFloatParts s).map FloatVal.toQ

/-- Models `Math.round`: round half toward positive infinity. -/
def jsRound (q : ℚ) : Int := Int.floor (q + 1/2)

/-- The `"KPI (%)"` branch of the cell loop in `buildHtmlTable_`
(source lines 298–304): `isNaN(v) || v === 0 ? '0%' :
`${Math.round(v * 100)}%``. -/
def kpiCellText (v : String) : String :=
  match parseFloatQ v with
  | none => "0%"
  | some q => if q = 0 then "0%" else toString (jsRound (q * 100)) ++ "%"

/-- One body cell of the department HTML table (source lines 292–309):
a falsy record value becomes `""`, the `"KPI (%)"` column is formatted,
and a value left empty is rendered as the number `0`. -/
def htmlCellValue (header v : String) : String :=
  let cellValue := if v = "" then "" else v
  let cellValue := if header = "KPI (%)" then kpiCellText cellValue else cellValue
  if cellValue = "" then "0" else cellValue

theorem kpiCellText_ne_empty (v : String) : kpiCellText v ≠ "" := by
  rw [kpiCellText]
  cases h : parseFloatQ v with
  | none => simp
  | some q =>
      show (if q = 0 then "0%" else toString (jsRound (q * 100)) ++ "%") ≠ ""
      by_cases hq : q = 0
      · simp [hq]
      · rw [if_neg hq]
        intro he
        have h1 : (toString (jsRound (q * 100)) ++ "%").length = 0 := by rw [he]; rfl
        rw [String.length_append] at h1
        have h2 : ("%").length = 1 := rfl
        omega

/-- C7: a `"KPI (%)"` cell renders as `"0%"` when its value does not
parse as a number or parses to zero, and otherwise as the value
multiplied by 100 and rounded half-up to a whole percent with a trailing
`"%"`; in particular `0.95 ↦ "95%"`, `0 ↦ "0%"` and `"abc" ↦ "0%"`. -/
theorem kpi_cell_format (v : String) :
    htmlCellValue "KPI (%)" v =
      (match parseFloatQ v with
       | none => "0%"
       | some q =>
           if q = 0 then "0%"
           else toString (Int.floor (q * 100 + 1/2)) ++ "%") ∧
    htmlCellValue "KPI (%)" "0.95" = "95%" ∧
    htmlCellValue "KPI (%)" "0" = "0%" ∧
    htmlCellValue "KPI (%)" "abc" = "0%" := by
  have hgen : ∀ w : String, htmlCellValue "KPI (%)" w = kpiCellText w := by
    intro w
    show (if (if "KPI (%)" = "KPI (%)" then kpiCellText (if w = "" then "" else w)
            else (if w = "" then "" else w)) = "" then "0"
          else (if "KPI (%)" = "KPI (%)" then kpiCellText (if w = "" then "" else w)
            else (if w = "" then "" else w))) = kpiCellText w
    have hw : (if w = "" then "" else w) = w := by
      by_cases h : w = "" <;> simp [h]
    rw [if_pos rfl, hw, if_neg (kpiCellText_ne_empty w)]
  refine ⟨?_, ?_, ?_, ?_⟩
  · rw [hgen v, kpiCellText]
    rfl
  · rw [hgen "0.95", kpiCellText]
    have hp : parseFloatQ "0.95" = some (FloatVal.toQ ⟨false, 0, 95, 2⟩) := by
      have : parseFloatParts "0.95" = some ⟨false, 0, 95, 2⟩ := by decide
      rw [parseFloatQ, this]
      rfl
    rw [hp]
    have hq : FloatVal.toQ ⟨false, 0, 95, 2⟩ = 19/20 := by
      rw [FloatVal.toQ]
      norm_num
    rw [hq]
    show (if (19/20 : ℚ) = 0 then "0%"
          else toString (jsRound ((19/20 : ℚ) * 100)) ++ "%") = "95%"
    have hne : (19/20 : ℚ) ≠ 0 := by norm_num
    rw [if_neg hne]
    have hr : jsRound ((19/20 : ℚ) * 100) = 95 := by
      rw [jsRound]
      norm_num
    rw [hr]
    decide
  · rw [hgen "0", kpiCellText]
    have hp : parseFloatQ "0" = some (FloatVal.toQ ⟨false, 0, 0, 0⟩) := by
      have : parseFloatParts "0" = some ⟨false, 0, 0, 0⟩ := by decide
      rw [parseFloatQ, this]
      rfl
    rw [hp]
    have hq : FloatVal.toQ ⟨false, 0, 0, 0⟩ = 0 := by
      rw [FloatVal.toQ]
      norm_num
    rw [hq]
    show (if (0 : ℚ) = 0 then "0%"
          else toString (jsRound ((0 : ℚ) * 100)) ++ "%") = "0%"
    rw [if_pos rfl]
  · rw [hgen "abc", kpiCellText]
    have hp : parseFloatQ "abc" = none := by
      have : parseFloatParts "abc" = none := by decide
      rw [parseFloatQ, this]
      rfl
    rw [hp]

/-! ## CSV serialization (`toCsvBlob_`) and an RFC-4180-style parser -/

/-- `value.replace(/"/g, '""')`: double every double quote. -/
def escQuotes : List Char → List Char
  | [] => []
  | c :: cs => if c = '"' then '"' :: '"' :: escQuotes cs else c :: escQuotes cs

/-- One serialized CSV field (source lines 336–343): wrapped in quotes
with inner quotes doubled exactly when the value contains a comma or a
newline; any other value — quotes included — is written verbatim. -/
def csvEscapeField (v : List Char) : List Char :=
  if v.contains ',' || v.contains '\n' then '"' :: (escQuotes v ++ ['"']) else v

/-- `values.join(",")`. -/
def joinFields : List (List Char) → List Char
  | [] => []
  | [v] => v
  | v :: vs => v ++ ',' :: joinFields vs

/-- One serialized record line: escaped fields joined with commas, plus
the `"\n"` terminator. -/
def csvLine (vs : List (List Char)) : List Char :=
  joinFields (vs.map csvEscapeField) ++ ['\n']

/-- The serialized lines of a list of records. -/
def csvLines (lines : List (List (List Char))) : List Char :=
  lines.flatMap csvLine

/-- The record keys in insertion order (`Object.keys(rows[0])`). -/
def attendanceKeys : List String :=
  ["Department", "Name", "Employee ID", "AM Face Scan", "PM Face Scan",
   "Attendance", "HR - Adj", "KPI Leave", "KPI (%)"]

/-- The record's values in key order (`headers.map(header => row[header]
? row[header].toString() : "")` — on string fields the identity, since
the only falsy string is `""`). -/
def recordValues (r : AttendanceRecord) : List String :=
  [r.department, r.name, r.employeeId, r.amFaceScan, r.pmFaceScan,
   r.attendance, r.hrAdj, r.kpiLeave, r.kpiPercent]

/-- `toCsvBlob_` (source lines 330–348): `null` for an empty record
list, otherwise the header line — the keys joined *without* escaping —
followed by one line per record. -/
def toCsvBlob (rows : List AttendanceRecord) : Option (List Char) :=
  if rows = [] then none
  else some ((joinFields (attendanceKeys.map String.data) ++ ['\n']) ++
    rows.flatMap (fun r => csvLine ((recordValues r).map String.data)))

/-- Quoted-field tail parser (the opening quote has been consumed): a
doubled `""` is a literal quote, a single `"` closes the field; `none`
models an unterminated quoted field. -/
def parseQuoted : List Char → Option (List Char × List Char)
  | [] => none
  | [c] => if c = '"' then some ([], []) else none
  | c :: c2 :: cs =>
      if c = '"' then
        if c2 = '"' then (parseQuoted cs).map (fun p => ('"' :: p.1, p.2))
        else some ([], c2 :: cs)
      else (parseQuoted (c2 :: cs)).map (fun p => (c :: p.1, p.2))

/-- Unquoted field: read verbatim up to the next comma or newline (a
quote inside an unquoted field is taken literally — the common lenient
extension of RFC 4180). -/
def parseUnquoted : List Char → List Char × List Char
  | [] => ([], [])
  | c :: cs =>
      if c = ',' ∨ c = '\n' then ([], c :: cs)
      else
        let p := parseUnquoted cs
        (c :: p.1, p.2)

/-- One field: quoted iff it begins with a double quote. -/
def parseField : List Char → Option (List Char × List Char)
  | [] => some ([], [])
  | c :: cs => if c = '"' then parseQuoted cs else some (parseUnquoted (c :: cs))

/-- The fields of one record (`fuel` bounds the field count): after a
field, a comma continues the record and a newline or the end of input
ends it; a closing quote not followed by a separator is a parse error. -/
def parseFieldsAux : Nat → List Char → Option (List (List Char) × List Char)
  | 0, _ => none
  | fuel + 1, cs =>
      match parseField cs with
      | none => none
      | some (f, rest) =>
          match rest with
          | [] => some ([f], [])
          | c :: cs2 =>
              if c = ',' then
                match parseFieldsAux fuel cs2 with
                | none => none
                | some (fs, rest2) => some (f :: fs, rest2)
              else if c = '\n' then some ([f], cs2)
              else none

/-- All records (`fuel` bounds the line count). -/
def parseRowsAux : Nat → List Char → Option (List (List (List Char)))
  | 0, cs => if cs.isEmpty then some [] else none
  | _ + 1, [] => some []
  | fuel + 1, c :: cs =>
      match parseFieldsAux (cs.length + 2) (c :: cs) with
      | none => none
      | some (fs, rest) =>
          match parseRowsAux fuel rest with
          | none => none
          | some rs => some (fs :: rs)

/-- Parse a CSV text with standard comma-delimited quoted-field
(RFC-4180-style) rules. -/
def csvParse (cs : List Char) : Option (List (List (List Char))) :=
  parseRowsAux (cs.length + 1) cs

theorem parseUnquoted_append (v : List Char) :
    ∀ rest : List Char, (∀ c ∈ v, ¬(c = ',' ∨ c = '\n')) →
      (rest = [] ∨ ∃ d cs, rest = d :: cs ∧ (d = ',' ∨ d = '\n')) →
      parseUnquoted (v ++ rest) = (v, rest) := by
  induction v with
  | nil =>
      intro rest _ hrest
      rcases hrest with h | ⟨d, cs, rfl, hd⟩
      · simp [h, parseUnquoted]
      · simp [parseUnquoted, hd]
  | cons c v ih =>
      intro rest hv hrest
      have hc : ¬(c = ',' ∨ c = '\n') := hv c (by simp)
      rw [List.cons_append, parseUnquoted]
      simp only [if_neg hc]
      rw [ih rest (fun x hx => hv x (by simp [hx])) hrest]

theorem parseQuoted_escQuotes (v : List Char) :
    ∀ rest : List Char, rest.head? ≠ some '"' →
      parseQuoted (escQuotes v ++ '"' :: rest) = some (v, rest) := by
  induction v with
  | nil =>
      intro rest hrest
      cases rest with
      | nil => simp [escQuotes, parseQuoted]
      | cons r rs =>
          have hr : ¬ r = '"' := by simpa using hrest
          simp [escQuotes, parseQuoted, hr]
  | cons c v ih =>
      intro rest hrest
      by_cases hc : c = '"'
      · subst hc
        have hsh : escQuotes ('"' :: v) ++ '"' :: rest =
            '"' :: '"' :: (escQuotes v ++ '"' :: rest) := by
          simp [escQuotes]
        rw [hsh, parseQuoted, ih rest hrest]
        rfl
      · have hsh : escQuotes (c :: v) ++ '"' :: rest =
            c :: (escQuotes v ++ '"' :: rest) := by
          simp [escQuotes, hc]
        rw [hsh]
        cases hsplit : escQuotes v ++ '"' :: rest with
        | nil => simp at hsplit
        | cons x xs =>
            rw [parseQuoted]
            simp only [if_neg hc]
            rw [← hsplit, ih rest hrest]
            rfl

theorem parseField_encode (v : List Char) (d : Char) (rest : List Char)
    (hd : d = ',' ∨ d = '\n') (hv : v.head? ≠ some '"') :
    parseField (csvEscapeField v ++ d :: rest) = some (v, d :: rest) := by
  have hdq : ¬ d = '"' := by rcases hd with h | h <;> simp [h]
  rw [csvEscapeField]
  by_cases hq : (v.contains ',' || v.contains '\n') = true
  · rw [if_pos hq]
    have hsh : ('"' :: (escQuotes v ++ ['"'])) ++ d :: rest =
        '"' :: (escQuotes v ++ '"' :: (d :: rest)) := by
      simp
    rw [hsh, parseField]
    simp only [if_pos rfl]
    exact parseQuoted_escQuotes v (d :: rest) (by simpa using hdq)
  · rw [if_neg hq]
    have hnc : ∀ c ∈ v, ¬(c = ',' ∨ c = '\n') := by
      intro c hc hor
      apply hq
      rcases hor with h | h
      · subst h
        simp only [List.contains_eq_any_beq, Bool.or_eq_true, List.any_eq_true,
          beq_iff_eq]
        exact Or.inl ⟨',', hc, rfl⟩
      · subst h
        simp only [List.contains_eq_any_beq, Bool.or_eq_true, List.any_eq_true,
          beq_iff_eq]
        exact Or.inr ⟨'\n', hc, rfl⟩
    cases v with
    | nil =>
        rw [List.nil_append, parseField]
        simp only [if_neg hdq]
        rw [parseUnquoted]
        simp [hd]
    | cons c v' =>
        have hc : ¬ c = '"' := by simpa using hv
        rw [List.cons_append, parseField]
        simp only [if_neg hc]
        rw [← List.cons_append,
          parseUnquoted_append (c :: v') (d :: rest) hnc
            (Or.inr ⟨d, rest, rfl, hd⟩)]

theorem parseFieldsAux_encode (vs : List (List Char)) :
    ∀ (fuel : Nat) (rest : List Char), vs ≠ [] → vs.length ≤ fuel →
      (∀ v ∈ vs, v.head? ≠ some '"') →
      parseFieldsAux fuel (joinFields (vs.map csvEscapeField) ++ '\n' :: rest) =
        some (vs, rest) := by
  induction vs with
  | nil => intro fuel rest h; exact absurd rfl h
  | cons v vs ih =>
      intro fuel rest _ hfuel hq
      obtain ⟨f, rfl⟩ : ∃ f, fuel = f + 1 := by
        have h1 : 1 ≤ fuel := le_trans (by simp only [List.length_cons]; omega) hfuel
        exact ⟨fuel - 1, by omega⟩
      cases vs with
      | nil =>
          have hjoin : joinFields ((v :: []).map csvEscapeField) =
              csvEscapeField v := by
            simp [joinFields]
          rw [hjoin, parseFieldsAux,
            parseField_encode v '\n' rest (Or.inr rfl) (hq v (by simp))]
          simp
      | cons w ws =>
          have hjoin :
              joinFields ((v :: w :: ws).map csvEscapeField) ++ '\n' :: rest =
                csvEscapeField v ++
                  ',' :: (joinFields ((w :: ws).map csvEscapeField) ++ '\n' :: rest) := by
            simp [joinFields]
          rw [hjoin, parseFieldsAux,
            parseField_encode v ','
              (joinFields ((w :: ws).map csvEscapeField) ++ '\n' :: rest)
              (Or.inl rfl) (hq v (by simp))]
          have hrec := ih f rest (by simp)
            (by simp only [List.length_cons] at hfuel ⊢; omega)
            (fun x hx => hq x (by simp [hx]))
          simp only [if_true, hrec]

theorem joinFields_length_ge (vs : List (List Char)) :
    vs.length ≤ (joinFields vs).length + 1 := by
  induction vs with
  | nil => simp
  | cons v vs ih =>
      cases vs with
      | nil => simp [joinFields]
      | cons w ws =>
          rw [show joinFields (v :: w :: ws) = v ++ ',' :: joinFields (w :: ws)
            from rfl]
          rw [List.length_append]
          simp only [List.length_cons] at ih ⊢
          omega

theorem csvLine_length_ge (vs : List (List Char)) :
    vs.length ≤ (csvLine vs).length ∧ 1 ≤ (csvLine vs).length := by
  rw [csvLine, List.length_append]
  have h := joinFields_length_ge (vs.map csvEscapeField)
  rw [List.length_map] at h
  simp only [List.length_cons, List.length_nil]
  omega

theorem csvLines_length_ge (lines : List (List (List Char))) :
    lines.length ≤ (csvLines lines).length := by
  induction lines with
  | nil => simp [csvLines]
  | cons vs lines ih =>
      rw [csvLines, List.flatMap_cons, List.length_append, ← csvLines]
      have h := (csvLine_length_ge vs).2
      simp only [List.length_cons]
      omega

theorem parseRowsAux_encode (lines : List (List (List Char))) :
    ∀ fuel : Nat, lines.length ≤ fuel →
      (∀ vs ∈ lines, vs ≠ [] ∧ ∀ v ∈ vs, v.head? ≠ some '"') →
      parseRowsAux fuel (csvLines lines) = some lines := by
  induction lines with
  | nil =>
      intro fuel _ _
      cases fuel with
      | zero => simp [csvLines, parseRowsAux]
      | succ f => simp [csvLines, parseRowsAux]
  | cons vs lines ih =>
      intro fuel hfuel hq
      obtain ⟨f, rfl⟩ : ∃ f, fuel = f + 1 := by
        have h1 : 1 ≤ fuel := le_trans (by simp only [List.length_cons]; omega) hfuel
        exact ⟨fuel - 1, by omega⟩
      obtain ⟨hvs, hqv⟩ := hq vs (by simp)
      have hshape : csvLines (vs :: lines) =
          joinFields (vs.map csvEscapeField) ++ '\n' :: csvLines lines := by
        rw [csvLines, List.flatMap_cons, ← csvLines, csvLine]
        simp
      cases hcc : joinFields (vs.map csvEscapeField) ++ '\n' :: csvLines lines with
      | nil => simp at hcc
      | cons c cs =>
          rw [hshape, hcc, parseRowsAux]
          have hbound : vs.length ≤ cs.length + 2 := by
            have h1 := joinFields_length_ge (vs.map csvEscapeField)
            rw [List.length_map] at h1
            have h2 : (joinFields (vs.map csvEscapeField)).length ≤ cs.length := by
              have := congrArg List.length hcc
              rw [List.length_append] at this
              simp only [List.length_cons] at this
              omega
            omega
          have hfields := parseFieldsAux_encode vs (cs.length + 2) (csvLines lines)
            hvs hbound hqv
          rw [hcc] at hfields
          rw [hfields]
          have hrec := ih f (by simp only [List.length_cons] at hfuel ⊢; omega)
            (fun x hx => hq x (by simp [hx]))
          show (match parseRowsAux f (csvLines lines) with
                | none => none
                | some rs => some (vs :: rs)) = some (vs :: lines)
          rw [hrec]

/-- Parsing the serialized lines reproduces them, provided every line is
a non-empty field list and no field value begins with a double quote. -/
theorem csvParse_csvLines (lines : List (List (List Char)))
    (hq : ∀ vs ∈ lines, vs ≠ [] ∧ ∀ v ∈ vs, v.head? ≠ some '"') :
    csvParse (csvLines lines) = some lines := by
  rw [csvParse]
  exact parseRowsAux_encode lines ((csvLines lines).length + 1)
    (le_trans (csvLines_length_ge lines) (by omega)) hq

set_option maxRecDepth 100000 in
theorem header_escape_id :
    (attendanceKeys.map String.data).map csvEscapeField =
      attendanceKeys.map String.data := by
  decide

/-- C2 (amended): parsing the serializer's output with standard
comma-delimited quoted-field rules reproduces the header and every
record's values exactly — including values containing commas, newlines,
or interior double quotes — *provided no value begins with a double
quote*: such a value is emitted unquoted, so a standard parser misreads
it as the start of a quoted field (see the counterexample). -/
theorem toCsvBlob_roundtrip (rows : List AttendanceRecord)
    (hne : rows ≠ [])
    (hq : ∀ r ∈ rows, ∀ v ∈ recordValues r, v.data.head? ≠ some '"') :
    toCsvBlob rows =
      some (csvLines ((attendanceKeys.map String.data) ::
        rows.map (fun r => (recordValues r).map String.data))) ∧
    csvParse (csvLines ((attendanceKeys.map String.data) ::
        rows.map (fun r => (recordValues r).map String.data))) =
      some ((attendanceKeys.map String.data) ::
        rows.map (fun r => (recordValues r).map String.data)) := by
  constructor
  · rw [toCsvBlob, if_neg hne, csvLines, List.flatMap_cons]
    rw [show csvLine (attendanceKeys.map String.data) =
        joinFields (attendanceKeys.map String.data) ++ ['\n'] by
      rw [csvLine, header_escape_id]]
    rw [List.flatMap_map]
  · apply csvParse_csvLines
    intro vs hvs
    rcases List.mem_cons.mp hvs with h | h
    · subst h
      refine ⟨by decide, by decide⟩
    · rw [List.mem_map] at h
      obtain ⟨r, hr, rfl⟩ := h
      refine ⟨by simp [recordValues], ?_⟩
      intro v hv
      rw [List.mem_map] at hv
      obtain ⟨s, hs, rfl⟩ := hv
      exact hq r hr s hs

/-- The record of the C2 counterexample: its Department value is a
single double-quote character (and contains no comma or newline, so the
serializer writes it unquoted). -/
def quoteRec : AttendanceRecord := ⟨"\"", "", "", "", "", "", "", "", ""⟩

set_option maxRecDepth 1000000 in
/-- C2 counterexample: for the record whose Department is `"`, the
serializer emits the value unquoted, the parser reads the lone quote as
an unterminated quoted field, and the parse fails instead of
reproducing the record's values. -/
theorem toCsvBlob_roundtrip_cx :
    toCsvBlob [quoteRec] =
      some ((joinFields (attendanceKeys.map String.data) ++ ['\n']) ++
        csvLine ((recordValues quoteRec).map String.data)) ∧
    csvParse ((joinFields (attendanceKeys.map String.data) ++ ['\n']) ++
        csvLine ((recordValues quoteRec).map String.data)) = none ∧
    (none : Option (List (List (List Char)))) ≠
      some [attendanceKeys.map String.data,
        (recordValues quoteRec).map String.data] := by
  refine ⟨by decide, by decide, by decide⟩

/-- The record of the C2 witness: a Department containing a comma, a
Name containing an interior double quote, an Employee ID containing a
newline. -/
def trickyRec : AttendanceRecord :=
  ⟨"A,B", "C\"D", "E\nF", "", "", "", "", "", ""⟩

set_option maxRecDepth 1000000 in
/-- Witness for C2 (amended) on `trickyRec`. -/
theorem toCsvBlob_roundtrip_wit :
    toCsvBlob [trickyRec] =
      some (csvLines ((attendanceKeys.map String.data) ::
        [trickyRec].map (fun r => (recordValues r).map String.data))) ∧
    csvParse (csvLines ((attendanceKeys.map String.data) ::
        [trickyRec].map (fun r => (recordValues r).map String.data))) =
      some ((attendanceKeys.map String.data) ::
        [trickyRec].map (fun r => (recordValues r).map String.data)) :=
  toCsvBlob_roundtrip [trickyRec] (by decide) (by decide)

end MarathonScripts
